import Mathlib

/-!
# Lua 3.2 standard I/O library (`liolib.c`): the buffered readers

A shallow embedding of the READ section of `liolib.c` (`read_number`, `read_word`,
`read_line`, `read_file`, `read_chars`, `io_read`) and of `closefile` / `gc_close`.

* A `FILE *` opened for reading is the list of the bytes it has not delivered yet; a byte
  pushed back with `ungetc` is put in front of that list.
* The auxiliary buffer of `lauxlib` (the accumulator) is the list of the bytes between
  `luaL_buffer()` and `luaL_buffer() + luaL_getsize()`.
* Bytes are natural numbers (`unsigned char` values, 0..255); `EOF` is `none`.
-/

namespace Liolib

/-- Remaining content of a `FILE *` opened for reading. -/
abbrev Stream := List Nat

/-- Content of the `lauxlib` buffer, from `luaL_buffer()` on, `luaL_getsize()` bytes. -/
abbrev Buffer := List Nat

/-! ## C library -/

/-- C library `isspace` in the "C" locale: space, `\t`, `\n`, `\v`, `\f`, `\r`. -/
def isspace (c : Nat) : Bool := c == 32 || (9 ≤ c && c ≤ 13)

/-- C library `isdigit`. -/
def isdigit (c : Nat) : Bool := 48 ≤ c && c ≤ 57

/-- C library `fgetc`: the next byte (or `none` for `EOF`) and the stream after it. -/
def fgetc (f : Stream) : Option Nat × Stream :=
  match f with
  | [] => (none, [])
  | c :: r => (some c, r)

/-- C library `ungetc`: pushes one byte back; `ungetc(EOF, f)` leaves the stream as it is. -/
def ungetc (c : Option Nat) (f : Stream) : Stream :=
  match c with
  | none => f
  | some b => b :: f

/-- C library `fread(b, 1, n, f)`: the bytes stored at `b` (their number is the return
value) and the stream after them. -/
def fread (n : Nat) (f : Stream) : List Nat × Stream := (f.take n, f.drop n)

/-- Bytes `fgets` takes from the stream: at most `k`, stopping after a newline. -/
def fgets_loop : Nat → Stream → List Nat × Stream
  | 0, f => ([], f)
  | _ + 1, [] => ([], [])
  | k + 1, c :: r =>
    if c = 10 then ([c], r)
    else ((c :: (fgets_loop k r).1), (fgets_loop k r).2)

/-- C library `fgets(b, size, f)`: `none` is the `NULL` it returns at end of file with
nothing read; otherwise the memory written at `b` (the bytes read, then the terminating
zero byte) and the stream after the bytes read. -/
def fgets (size : Nat) (f : Stream) : Option (List Nat × Stream) :=
  match f with
  | [] => none
  | _ :: _ => some ((fgets_loop (size - 1) f).1 ++ [0], (fgets_loop (size - 1) f).2)

/-- C library `strlen`: the number of bytes before the first zero byte. -/
def strlen (b : List Nat) : Nat := (b.takeWhile (fun c => c != 0)).length

/-! ## The `lauxlib` buffer -/

/-- Modelled from the spec: `luaL_resetbuffer` of lauxlib (not in `liolib.c`), the
accumulator's `reset()`: the buffer becomes empty. -/
def luaL_resetbuffer : Buffer := []

/-- Modelled from the spec: `luaL_addchar` of lauxlib (not in `liolib.c`), the
accumulator's `append` of one byte. -/
def luaL_addchar (buf : Buffer) (c : Nat) : Buffer := buf ++ [c]

/-- Modelled from the spec: `luaL_openspace` followed by `luaL_addsize(n)` of lauxlib (not
in `liolib.c`). `b` is what was written into the open space past the end of the buffer;
a non-negative `n` makes the first `n` bytes of it part of the buffer, a negative `n`
takes `-n` bytes off the end of the buffer. -/
def luaL_addsize (buf : Buffer) (b : List Nat) (n : Int) : Buffer :=
  if 0 ≤ n then buf ++ b.take n.toNat else buf.take (buf.length - (-n).toNat)

/-- Modelled from the spec: `luaL_getsize` of lauxlib (not in `liolib.c`), the
accumulator's `length()`. -/
def luaL_getsize (buf : Buffer) : Nat := buf.length

/-! ## Lua values and arguments -/

/-- A number read by `fscanf("%lf")`: the decimal literal `(-1)^neg * mant * 10^exp10`. -/
structure LuaNumber where
  neg : Bool
  mant : Nat
  exp10 : Int
deriving DecidableEq, Repr

/-- A value pushed on the Lua stack by `io_read`. -/
inductive Value where
  | number (d : LuaNumber)
  | string (s : List Nat)
deriving DecidableEq, Repr

/-- An argument of `read` as the Lua API shows it to `io_read`. The conversion of a string
to a number is done by the API, outside `liolib.c`, so its answer is part of the argument:
`noobject` is `LUA_NOOBJECT` (no such argument); `number n` is a number, `n` being
`(int)lua_getnumber(op)`; `string p` is a string `p` that the API does not convert to a
number (`lua_isnumber` fails); `numstring p n` is a string `p` that the API converts to a
number (`lua_isnumber` holds), `n` being `(int)lua_getnumber(op)`, as the string `"5"` with
`n = 5`; `other` is any object that is neither a number nor a string (nil, table,
userdata). -/
inductive LuaObject where
  | noobject
  | number (n : Int)
  | string (p : List Nat)
  | numstring (p : List Nat) (n : Int)
  | other
deriving DecidableEq, Repr

/-- Modelled from the spec: `lua_isnumber` of the Lua API (not in `liolib.c`): it holds
for a number and for a string that converts to a number. -/
def lua_isnumber (op : LuaObject) : Bool :=
  match op with
  | .number _ => true
  | .numstring _ _ => true
  | _ => false

/-- Modelled from the spec: `(int)lua_getnumber(op)` of the Lua API (not in `liolib.c`);
0 for an object that is not a number. -/
def lua_getnumber (op : LuaObject) : Int :=
  match op with
  | .number n => n
  | .numstring _ n => n
  | _ => 0

/-- Modelled from the spec: `luaL_opt_string(arg, def)` of lauxlib (not in `liolib.c`):
the default for a missing argument, the string for a string argument, and `none` when
the argument check fails ("string expected"). -/
def luaL_opt_string (op : LuaObject) (dflt : List Nat) : Option (List Nat) :=
  match op with
  | .noobject => some dflt
  | .string p => some p
  | .numstring p _ => some p
  | _ => none

/-! ## READ -/

/-- Size of the chunk `read_line` reads at a time. -/
def HUNK_LINE : Nat := 256

/-- Value of the decimal digits `ds`, most significant first, after the value `acc`. -/
def digits_value (acc : Nat) (ds : List Nat) : Nat :=
  ds.foldl (fun a d => 10 * a + (d - 48)) acc

/-- The optional sign of a numeric literal: whether it is `-`, and the rest. -/
def scan_sign (f : Stream) : Bool × Stream :=
  match f with
  | 45 :: r => (true, r)
  | 43 :: r => (false, r)
  | _ => (false, f)

/-- The optional exponent of a numeric literal (`e` or `E`, optional sign, at least one
digit): its value and the rest; without a complete exponent nothing is taken. -/
def scan_exponent (f : Stream) : Int × Stream :=
  match f with
  | [] => (0, f)
  | c :: r =>
    if c = 101 ∨ c = 69 then
      if ((scan_sign r).2.takeWhile isdigit) = [] then (0, f)
      else
        ((if (scan_sign r).1 then -1 else 1) *
            (digits_value 0 ((scan_sign r).2.takeWhile isdigit) : Int),
          (scan_sign r).2.dropWhile isdigit)
    else (0, f)

/-- Modelled from the spec: C library `fscanf(f, "%lf", &d)` (not in `liolib.c`): white
space is skipped, then the longest prefix that is a floating-point literal (optional sign,
digits, optional fractional part, optional exponent) is consumed and converted; `none` is
the matching failure, which consumes the white space only. -/
def fscanf_lf (f : Stream) : Option LuaNumber × Stream :=
  let f1 := f.dropWhile isspace
  let s := scan_sign f1
  let ip := s.2.takeWhile isdigit
  let f3 := s.2.dropWhile isdigit
  let fp := match f3 with
    | 46 :: r => r.takeWhile isdigit
    | _ => []
  let f4 := match f3 with
    | 46 :: r => r.dropWhile isdigit
    | _ => f3
  if ip = [] ∧ fp = [] then (none, f1)
  else
    let e := scan_exponent f4
    (some ⟨s.1, digits_value 0 (ip ++ fp), e.1 - fp.length⟩, e.2)

/-- Embedding of `read_number`: the number pushed (or `none` when the read fails, return 0) and the
stream after the call. -/
def read_number (f : Stream) : Option LuaNumber × Stream := fscanf_lf f

/-- First loop of `read_word`, `do { c = fgetc(f); } while isspace(c);`: the first
character that is not white space (`none` for `EOF`) and the stream after it. -/
def skip_spaces : Stream → Option Nat × Stream
  | [] => (none, [])
  | c :: r => if isspace c then skip_spaces r else (some c, r)

/-- Second loop of `read_word`,
`while (c != EOF && !isspace(c)) { luaL_addchar(c); c = fgetc(f); }`: the buffer, the
character that ended the loop and the stream. -/
def word_loop : Option Nat → Buffer → Stream → Buffer × Option Nat × Stream
  | none, buf, f => (buf, none, f)
  | some c, buf, [] => if isspace c then (buf, some c, []) else (luaL_addchar buf c, none, [])
  | some c, buf, d :: r =>
    if isspace c then (buf, some c, d :: r) else word_loop (some d) (luaL_addchar buf c) r

/-- Embedding of `read_word`: the buffer and the stream after the call. -/
def read_word (buf : Buffer) (f : Stream) : Buffer × Stream :=
  let s := skip_spaces f
  let w := word_loop s.1 buf s.2
  (w.1, ungetc w.2.1 w.2.2)

/-- How a call of `read_line` ends. -/
inductive LineResult where
  /-- The call returns `r` with the buffer `buf` and the stream `f`. -/
  | ret (r : Nat) (buf : Buffer) (f : Stream)
  /-- The test `b[n-1] != '\n'` is evaluated with `n = 0` on an empty buffer: it reads
  the byte before the start of the accumulator. -/
  | badindex (buf : Buffer) (f : Stream)
deriving DecidableEq, Repr

/-- The `do ... while` loop of `read_line` and what follows it, with `fuel` iterations
allowed (`none`: more are needed). In `b[n-1]`, `b` is the end of the buffer before
`luaL_addsize(n)`, so `b[n-1]` is the last byte of the buffer after it. -/
def read_line_loop : Nat → Buffer → Stream → Option LineResult
  | 0, _, _ => none
  | fuel + 1, buf, f =>
    match fgets HUNK_LINE f with
    | none => some (.ret 0 buf f)
    | some (b, f1) =>
      let n := strlen b
      let buf1 := luaL_addsize buf b n
      match buf1.getLast? with
      | none => some (.badindex buf1 f1)
      | some c =>
        if c != 10 then read_line_loop fuel buf1 f1
        else some (.ret 1 (luaL_addsize buf1 [] (-1)) f1)

/-- Embedding of `read_line`. Every iteration but the last takes at least one byte from the stream,
so `f.length + 1` iterations are enough. -/
def read_line (buf : Buffer) (f : Stream) : Option LineResult :=
  read_line_loop (f.length + 1) buf f

/-- The `do ... while` loop of `read_file`, with `fuel` iterations allowed (`none`: more
are needed). `HUNK_FILE` is `BUFSIZ` of `<stdio.h>`. -/
def read_file_loop (HUNK_FILE : Nat) : Nat → Buffer → Stream → Option (Buffer × Stream)
  | 0, _, _ => none
  | fuel + 1, buf, f =>
    let r := fread HUNK_FILE f
    let n := r.1.length
    let buf1 := luaL_addsize buf r.1 n
    if n = HUNK_FILE then read_file_loop HUNK_FILE fuel buf1 r.2 else some (buf1, r.2)

/-- Embedding of `read_file`. With a positive `HUNK_FILE` every iteration but the last takes
bytes from the stream, so `f.length + 1` iterations are enough; with `HUNK_FILE = 0` the
loop of the source never ends and the result is `none`. -/
def read_file (HUNK_FILE : Nat) (buf : Buffer) (f : Stream) : Option (Buffer × Stream) :=
  read_file_loop HUNK_FILE (f.length + 1) buf f

/-- Embedding of `read_chars` for a count `n ≥ 0`: the return value `n == n1`, the buffer and the
stream. -/
def read_chars (buf : Buffer) (f : Stream) (n : Nat) : Bool × Buffer × Stream :=
  let r := fread n f
  let n1 := r.1.length
  (decide (n = n1), luaL_addsize buf r.1 n1, r.2)

/-- Outcome of one pass through the body of the loop of `io_read`. -/
inductive Part where
  /-- A value is pushed and the loop goes on to its condition. -/
  | push (v : Value) (f : Stream)
  /-- `return;  /* read fails */`. -/
  | stop (f : Stream)
  /-- The call is abandoned by `lua_error` / `luaL_argerror`. -/
  | error (msg : String) (f : Stream)
  /-- The pass leaves the defined behaviour of C: `read_line` indexes before the
  accumulator, or `read_chars` is given a negative count. -/
  | undefined
  /-- The pass does not finish. -/
  | diverges
deriving DecidableEq, Repr

/-- End of the body of the loop of `io_read`:
`l = luaL_getsize(); if (!success && l==0) return; lua_pushlstring(luaL_buffer(), l);`. -/
def push_buffer (success : Bool) (buf : Buffer) (f : Stream) : Part :=
  if !success && luaL_getsize buf == 0 then .stop f else .push (.string buf) f

/-- Body of the `do ... while` loop of `io_read` for the argument `op`, compiled without
`COMPAT_READPATTERN` (so `read_pattern` is `lua_error("read patterns are deprecated")`).
`BUFSIZ` is the constant of `<stdio.h>`. -/
def io_read_part (BUFSIZ : Nat) (f : Stream) (op : LuaObject) : Part :=
  let buf := luaL_resetbuffer
  if lua_isnumber op then
    let n := lua_getnumber op
    if 0 ≤ n then
      let r := read_chars buf f n.toNat
      push_buffer r.1 r.2.1 r.2.2
    else .undefined
  else
    match luaL_opt_string op [42, 108] with
    | none => .error "string expected" f
    | some p =>
      if p.getD 0 0 != 42 then .error "read patterns are deprecated" f
      else
        if p.getD 1 0 = 110 then
          match read_number f with
          | (some d, f1) => .push (.number d) f1
          | (none, f1) => .stop f1
        else if p.getD 1 0 = 108 then
          match read_line buf f with
          | none => .diverges
          | some (.badindex _ _) => .undefined
          | some (.ret r buf1 f1) => push_buffer (r != 0) buf1 f1
        else if p.getD 1 0 = 97 then
          match read_file BUFSIZ buf f with
          | none => .diverges
          | some (buf1, f1) => push_buffer true buf1 f1
        else if p.getD 1 0 = 119 then
          let r := read_word buf f
          push_buffer false r.1 r.2
        else .error "invalid format" f

/-- How a call of `io_read` ends. -/
inductive Outcome where
  /-- The call returns with `results` pushed, in this order, and the stream `f`. -/
  | returned (results : List Value) (f : Stream)
  /-- The call is abandoned by a Lua error. -/
  | error (msg : String) (f : Stream)
  /-- Undefined behaviour of C. -/
  | undefined
  /-- The call does not return. -/
  | diverges
deriving DecidableEq, Repr

/-- The `do ... while ((op = lua_getparam(++arg)) != LUA_NOOBJECT)` loop of `io_read`:
`op` is the current argument, `rest` the arguments after it and `pushed` the values pushed
so far. -/
def io_read_loop (BUFSIZ : Nat) : Stream → LuaObject → List LuaObject → List Value → Outcome
  | f, op, [], pushed =>
    match io_read_part BUFSIZ f op with
    | .push v f1 => .returned (pushed ++ [v]) f1
    | .stop f1 => .returned pushed f1
    | .error msg f1 => .error msg f1
    | .undefined => .undefined
    | .diverges => .diverges
  | f, op, op1 :: rest, pushed =>
    match io_read_part BUFSIZ f op with
    | .push v f1 => io_read_loop BUFSIZ f1 op1 rest (pushed ++ [v])
    | .stop f1 => .returned pushed f1
    | .error msg f1 => .error msg f1
    | .undefined => .undefined
    | .diverges => .diverges

/-- Embedding of `io_read`, from the point where `getfileparam` has found the stream `f`: `params` are
the arguments from `arg` on. With no argument the body runs once with
`op = LUA_NOOBJECT`. -/
def io_read (BUFSIZ : Nat) (f : Stream) (params : List LuaObject) : Outcome :=
  match params with
  | [] => io_read_loop BUFSIZ f .noobject [] []
  | op :: rest => io_read_loop BUFSIZ f op rest []

/-! ## Closing files -/

/-- Identity of a `FILE *`. -/
inductive CFile where
  | stdin
  | stdout
  | stderr
  | other (id : Nat)
deriving DecidableEq, Repr

/-- The two tags of file handles: `iotag` (open) and `CLOSEDTAG(iotag)`. -/
inductive Tag where
  | iotag
  | closedtag
deriving DecidableEq, Repr

/-- A file handle: the userdata (its `FILE *` and its tag) and whether the C stream has
been closed by `CLOSEFILE`. -/
structure Handle where
  file : CFile
  tag : Tag
  closed : Bool
deriving DecidableEq, Repr

/-- The handles `openwithtags` predefines (`_STDIN`, `_STDOUT`, `_STDERR`; `_INPUT` and
`_OUTPUT` are the first two again): `setfile(stdin, ..., iotag)` and so on. -/
def openwithtags : List Handle :=
  [⟨.stdin, .iotag, false⟩, ⟨.stdout, .iotag, false⟩, ⟨.stderr, .iotag, false⟩]

/-- Embedding of `closefile`: its return value and the handle after the call. `status` is what
`CLOSEFILE(f)` returns when it is called. -/
def closefile (status : Int) (h : Handle) : Nat × Handle :=
  if h.file = .stdin ∨ h.file = .stdout then (1, h)
  else (if status = 0 then 1 else 0, { h with tag := .closedtag, closed := true })

/-- Embedding of `gc_close`, the "gc" tag method: the handle after the call. -/
def gc_close (h : Handle) : Handle :=
  if h.file ≠ .stdin ∧ h.file ≠ .stdout ∧ h.file ≠ .stderr then { h with closed := true }
  else h

/-! ## What a call of `read` is to return, mode by mode

A second description of `io_read`, written from the modes and not from the C code: what
each mode yields from the content of the stream, and the sequence of modes stopped at the
first one that has nothing to yield. -/

/-- FixedCount(n): the first `n` bytes, or the fewer that are left; nothing to yield only
when bytes are asked for and none is left. -/
def spec_fixed_count (f : Stream) (n : Nat) : Part :=
  if f = [] ∧ 0 < n then .stop [] else .push (.string (f.take n)) (f.drop n)

/-- Line, on a stream without zero bytes: the bytes before the first newline, which is
consumed and left out; or, with no newline left, all the bytes left; nothing to yield
only at the end of the stream. -/
def spec_line (f : Stream) : Part :=
  if f = [] then .stop []
  else if 10 ∈ f then
    .push (.string (f.takeWhile (fun c => c != 10))) (f.dropWhile (fun c => c != 10)).tail
  else .push (.string f) []

/-- Word: the run of bytes that are not white space after the leading white space;
nothing to yield when that run is empty. -/
def spec_word (f : Stream) : Part :=
  if ((f.dropWhile isspace).takeWhile (fun c => !isspace c)) = [] then
    .stop ((f.dropWhile isspace).dropWhile (fun c => !isspace c))
  else
    .push (.string ((f.dropWhile isspace).takeWhile (fun c => !isspace c)))
      ((f.dropWhile isspace).dropWhile (fun c => !isspace c))

/-- WholeStream: all the bytes left, always. -/
def spec_whole (f : Stream) : Part := .push (.string f) []

/-- Number: the number `fscanf` finds; nothing to yield when it finds none. -/
def spec_number (f : Stream) : Part :=
  match fscanf_lf f with
  | (some d, g) => .push (.number d) g
  | (none, g) => .stop g

/-- Whether the argument asks for the Line mode (the format `"*l"`, or no argument). -/
def line_mode (op : LuaObject) : Bool :=
  match op with
  | .noobject => true
  | .string p => p.head? == some 42 && p.tail.head? == some 108
  | _ => false

/-- What one argument yields: a count (a number, or a string that converts to one) is
FixedCount; a format string selects its mode by the character after `*`; a negative count
is left undefined. -/
def spec_sub_read (f : Stream) (op : LuaObject) : Part :=
  match op with
  | .noobject => spec_line f
  | .number n => if 0 ≤ n then spec_fixed_count f n.toNat else .undefined
  | .numstring _ n => if 0 ≤ n then spec_fixed_count f n.toNat else .undefined
  | .other => .error "string expected" f
  | .string p =>
    if p.head? ≠ some 42 then .error "read patterns are deprecated" f
    else if p.tail.head? = some 110 then spec_number f
    else if p.tail.head? = some 108 then spec_line f
    else if p.tail.head? = some 97 then spec_whole f
    else if p.tail.head? = some 119 then spec_word f
    else .error "invalid format" f

/-- The modes served in order after the values `vs`: the sequence stops at the first mode
that has nothing to yield, and returns the values yielded before it; no later mode is
served. -/
def spec_reads : Stream → List LuaObject → List Value → Outcome
  | f, [], vs => .returned vs f
  | f, op :: ops, vs =>
    match spec_sub_read f op with
    | .push v g => spec_reads g ops (vs ++ [v])
    | .stop g => .returned vs g
    | .error msg g => .error msg g
    | .undefined => .undefined
    | .diverges => .diverges

/-- What a call of `read` with the non-empty sequence of modes `ops` is to return. -/
def spec_io_read (f : Stream) (ops : List LuaObject) : Outcome := spec_reads f ops []

/-! ## Lemmas on the C library and the buffer -/

theorem luaL_addsize_nat (buf b : List Nat) (n : Nat) :
    luaL_addsize buf b (n : Int) = buf ++ b.take n := by
  simp [luaL_addsize]

theorem luaL_addsize_neg_one (buf : List Nat) (c : Nat) :
    luaL_addsize (buf ++ [c]) [] (-1) = buf := by
  simp [luaL_addsize]

theorem strlen_append_zero (S X : List Nat) (h : 0 ∉ S) :
    strlen (S ++ 0 :: X) = S.length := by
  induction S with
  | nil => simp [strlen]
  | cons c S ih =>
    have hc : c ≠ 0 := fun e => h (by simp [e])
    have hS : 0 ∉ S := fun e => h (by simp [e])
    have := ih hS
    simp [strlen, hc] at this ⊢
    exact this

theorem fgets_loop_eof (k : Nat) (S : List Nat) (h : 10 ∉ S) :
    fgets_loop k S = (S.take k, S.drop k) := by
  induction k generalizing S with
  | zero => simp [fgets_loop]
  | succ k ih =>
    cases S with
    | nil => simp [fgets_loop]
    | cons c S =>
      have hc : c ≠ 10 := fun e => h (by simp [e])
      have hS : 10 ∉ S := fun e => h (by simp [e])
      simp [fgets_loop, hc, ih S hS]

theorem fgets_loop_long (k : Nat) (S R : List Nat) (h : 10 ∉ S) (hk : k ≤ S.length) :
    fgets_loop k (S ++ R) = (S.take k, S.drop k ++ R) := by
  induction k generalizing S with
  | zero => simp [fgets_loop]
  | succ k ih =>
    cases S with
    | nil => simp at hk
    | cons c S =>
      have hc : c ≠ 10 := fun e => h (by simp [e])
      have hS : 10 ∉ S := fun e => h (by simp [e])
      have hk1 : k ≤ S.length := by simpa using hk
      simp [fgets_loop, hc, ih S hS hk1]

theorem fgets_loop_line (k : Nat) (S T : List Nat) (h : 10 ∉ S) (hk : S.length < k) :
    fgets_loop k (S ++ 10 :: T) = (S ++ [10], T) := by
  induction k generalizing S with
  | zero => simp at hk
  | succ k ih =>
    cases S with
    | nil => simp [fgets_loop]
    | cons c S =>
      have hc : c ≠ 10 := fun e => h (by simp [e])
      have hS : 10 ∉ S := fun e => h (by simp [e])
      have hk1 : S.length < k := by simpa using hk
      simp [fgets_loop, hc, ih S hS hk1]

theorem not_mem_take {S : List Nat} {c : Nat} (k : Nat) (h : c ∉ S) : c ∉ S.take k :=
  fun e => h (List.mem_of_mem_take e)

theorem not_mem_drop {S : List Nat} {c : Nat} (k : Nat) (h : c ∉ S) : c ∉ S.drop k :=
  fun e => h (List.mem_of_mem_drop e)

/-- One chunk of a line that holds no newline and no zero byte in its first 255 bytes:
the loop of `read_line` takes these bytes and goes round again. -/
theorem read_line_loop_chunk (fuel : Nat) (buf S R : List Nat) (h10 : 10 ∉ S) (h0 : 0 ∉ S)
    (hlen : 255 ≤ S.length) :
    read_line_loop (fuel + 1) buf (S ++ R) =
      read_line_loop fuel (buf ++ S.take 255) (S.drop 255 ++ R) := by
  obtain ⟨c, S1, rfl⟩ : ∃ c S1, S = c :: S1 := by
    cases S with
    | nil => simp at hlen
    | cons c S1 => exact ⟨c, S1, rfl⟩
  have hg : fgets HUNK_LINE (c :: S1 ++ R) =
      some ((c :: S1).take 255 ++ [0], (c :: S1).drop 255 ++ R) := by
    have := fgets_loop_long 255 (c :: S1) R h10 hlen
    simp only [fgets, HUNK_LINE, List.cons_append] at this ⊢
    simp [this]
  have hs : strlen ((c :: S1).take 255 ++ [0]) = 255 := by
    rw [strlen_append_zero _ _ (not_mem_take 255 h0)]
    simp [List.length_take]
    simpa using hlen
  have hlast : (buf ++ (c :: S1).take 255).getLast? = some (((c :: S1).take 255).getLast (by simp)) := by
    rw [List.getLast?_append_of_ne_nil _ (by simp), List.getLast?_eq_getLast]
  have hne : ((c :: S1).take 255).getLast (by simp) ≠ 10 := by
    intro e
    exact not_mem_take 255 h10 (e ▸ List.getLast_mem _)
  rw [read_line_loop, hg]
  simp only [hs, luaL_addsize_nat]
  have ht : ((c :: S1).take 255 ++ [0]).take 255 = (c :: S1).take 255 := by
    rw [List.take_append_of_le_length (by simp [List.length_take]; simpa using hlen)]
    simp
  have hb : ((((c :: S1).take 255).getLast (by simp)) != 10) = true := by simpa using hne
  rw [ht, hlast]
  dsimp only
  rw [if_pos hb]

/-- The last chunk of a terminated line: fewer than 255 bytes before the newline. -/
theorem read_line_loop_last (fuel : Nat) (buf S T : List Nat) (h10 : 10 ∉ S) (h0 : 0 ∉ S)
    (hlen : S.length < 255) :
    read_line_loop (fuel + 1) buf (S ++ 10 :: T) = some (.ret 1 (buf ++ S) T) := by
  have hg : fgets HUNK_LINE (S ++ 10 :: T) = some (S ++ [10] ++ [0], T) := by
    have := fgets_loop_line 255 S T h10 hlen
    cases S with
    | nil => simp [fgets, HUNK_LINE, fgets_loop]
    | cons c S1 =>
      simp only [fgets, HUNK_LINE, List.cons_append] at this ⊢
      simp [this]
  have h0' : 0 ∉ S ++ [10] := by simpa using h0
  have hs : strlen (S ++ [10] ++ [0]) = S.length + 1 := by
    rw [strlen_append_zero _ _ h0']
    simp
  have ht : (S ++ [10] ++ [0]).take (S.length + 1) = S ++ [10] := by
    rw [List.take_append_of_le_length (by simp)]
    exact List.take_of_length_le (by simp)
  have hlast : (buf ++ (S ++ [10])).getLast? = some 10 := by
    rw [← List.append_assoc]
    simp
  rw [read_line_loop, hg]
  simp only [hs, luaL_addsize_nat, ht, hlast]
  rw [← List.append_assoc, luaL_addsize_neg_one]
  rfl

theorem read_line_loop_line (fuel : Nat) (buf S T : List Nat) (h10 : 10 ∉ S) (h0 : 0 ∉ S)
    (hfuel : S.length < fuel) :
    read_line_loop fuel buf (S ++ 10 :: T) = some (.ret 1 (buf ++ S) T) := by
  induction fuel generalizing buf S with
  | zero => simp at hfuel
  | succ fuel ih =>
    by_cases hlen : 255 ≤ S.length
    · rw [read_line_loop_chunk fuel buf S (10 :: T) h10 h0 hlen,
        ih (buf ++ S.take 255) (S.drop 255) (not_mem_drop 255 h10) (not_mem_drop 255 h0)
          (by simp [List.length_drop]; omega)]
      simp [List.append_assoc]
    · exact read_line_loop_last fuel buf S T h10 h0 (by omega)

theorem read_line_loop_eof (fuel : Nat) (buf B : List Nat) (h10 : 10 ∉ B) (h0 : 0 ∉ B)
    (hfuel : B.length < fuel) :
    read_line_loop fuel buf B = some (.ret 0 (buf ++ B) []) := by
  induction fuel generalizing buf B with
  | zero => simp at hfuel
  | succ fuel ih =>
    cases B with
    | nil => simp [read_line_loop, fgets]
    | cons c B1 =>
      by_cases hlen : 255 ≤ (c :: B1).length
      · have hc := read_line_loop_chunk fuel buf (c :: B1) [] h10 h0 hlen
        rw [List.append_nil, List.append_nil] at hc
        rw [hc, ih (buf ++ (c :: B1).take 255) ((c :: B1).drop 255) (not_mem_drop 255 h10)
          (not_mem_drop 255 h0) (by simp [List.length_drop] at hfuel ⊢; omega)]
        simp [List.append_assoc]
      · have hlt : (c :: B1).length ≤ 255 := by omega
        have hg : fgets HUNK_LINE (c :: B1) = some (c :: B1 ++ [0], []) := by
          have := fgets_loop_eof 255 (c :: B1) h10
          rw [List.take_of_length_le hlt, List.drop_of_length_le hlt] at this
          simp only [fgets, HUNK_LINE]
          simp [this]
        have hs : strlen (c :: B1 ++ [0]) = (c :: B1).length := strlen_append_zero _ _ h0
        have ht : (c :: B1 ++ [0]).take (c :: B1).length = c :: B1 := by
          rw [List.take_append_of_le_length (le_refl _)]
          exact List.take_of_length_le (le_refl _)
        have hlast : (buf ++ c :: B1).getLast? = some ((c :: B1).getLast (by simp)) := by
          rw [List.getLast?_append_of_ne_nil _ (by simp), List.getLast?_eq_getLast]
        have hne : (c :: B1).getLast (by simp) ≠ 10 := fun e => h10 (e ▸ List.getLast_mem _)
        have hb : (((c :: B1).getLast (by simp)) != 10) = true := by simpa using hne
        obtain ⟨fuel1, rfl⟩ : ∃ fuel1, fuel = fuel1 + 1 := by
          cases fuel with
          | zero => simp at hfuel
          | succ fuel1 => exact ⟨fuel1, rfl⟩
        rw [read_line_loop, hg]
        simp only [hs, luaL_addsize_nat, ht, hlast]
        rw [if_pos hb]
        simp [read_line_loop, fgets]

theorem read_file_loop_all (H fuel : Nat) (buf R : List Nat) (hH : 0 < H)
    (hfuel : R.length < fuel) :
    read_file_loop H fuel buf R = some (buf ++ R, []) := by
  induction fuel generalizing buf R with
  | zero => simp at hfuel
  | succ fuel ih =>
    rw [read_file_loop]
    simp only [fread, luaL_addsize_nat]
    have ht : (R.take H).take (R.take H).length = R.take H := List.take_of_length_le (le_refl _)
    rw [ht]
    by_cases hlen : H ≤ R.length
    · have hn : (R.take H).length = H := by simp [List.length_take, hlen]
      rw [if_pos hn, ih (buf ++ R.take H) (R.drop H) (by simp [List.length_drop]; omega)]
      simp [List.append_assoc]
    · have hn : (R.take H).length ≠ H := by simp [List.length_take]; omega
      rw [if_neg hn, List.take_of_length_le (by omega), List.drop_of_length_le (by omega)]

theorem ungetc_fgetc (R : List Nat) : ungetc (fgetc R).1 (fgetc R).2 = R := by
  cases R <;> rfl

theorem skip_spaces_run (W rest : List Nat) (hW : ∀ w ∈ W, isspace w = true)
    (hrest : ∀ c ∈ rest.head?, isspace c = false) :
    skip_spaces (W ++ rest) = fgetc rest := by
  induction W with
  | nil =>
    cases rest with
    | nil => rfl
    | cons c r =>
      have hc : isspace c = false := hrest c (by simp)
      simp [skip_spaces, fgetc, hc]
  | cons w W ih =>
    have hw : isspace w = true := hW w (by simp)
    have := ih (fun x hx => hW x (by simp [hx]))
    simp [skip_spaces, hw, this]

theorem word_loop_space (buf f : List Nat) (c : Nat) (hc : isspace c = true) :
    word_loop (some c) buf f = (buf, some c, f) := by
  cases f <;> simp [word_loop, hc]

theorem word_loop_run (X R buf : List Nat) (c : Nat) (hc : isspace c = false)
    (hX : ∀ x ∈ X, isspace x = false) (hR : ∀ r ∈ R.head?, isspace r = true) :
    word_loop (some c) buf (X ++ R) = (buf ++ c :: X, (fgetc R).1, (fgetc R).2) := by
  induction X generalizing buf c with
  | nil =>
    cases R with
    | nil => simp [word_loop, hc, luaL_addchar, fgetc]
    | cons r R1 =>
      have hr : isspace r = true := hR r (by simp)
      simp [word_loop, hc, word_loop_space _ _ r hr, luaL_addchar, fgetc]
  | cons x X ih =>
    have hx : isspace x = false := hX x (by simp)
    have := ih (luaL_addchar buf c) x hx (fun y hy => hX y (by simp [hy]))
    simp only [luaL_addchar, List.append_assoc, List.singleton_append] at this
    simp [word_loop, hc, this, luaL_addchar]

/-- What `read_word` does on white space `W`, a word `X` and a rest `R`. -/
theorem read_word_run (buf W X R : List Nat) (hW : ∀ w ∈ W, isspace w = true)
    (hX : ∀ x ∈ X, isspace x = false) (hR : ∀ r ∈ R.head?, isspace r = true)
    (hmax : X = [] → R = []) :
    read_word buf (W ++ X ++ R) = (buf ++ X, R) := by
  cases X with
  | nil =>
    have hR0 : R = [] := hmax rfl
    subst hR0
    have hs := skip_spaces_run W [] hW (by simp)
    simp only [List.append_nil] at hs ⊢
    simp [read_word, hs, fgetc, word_loop, ungetc]
  | cons c X1 =>
    have hc : isspace c = false := hX c (by simp)
    have hs := skip_spaces_run W (c :: X1 ++ R) hW (by simpa using hc)
    have hw := word_loop_run X1 R buf c hc (fun y hy => hX y (by simp [hy])) hR
    rw [List.append_assoc]
    simp only [List.cons_append] at hs
    simp only [read_word, hs, fgetc, List.cons_append]
    rw [hw]
    exact Prod.ext rfl (ungetc_fgetc R)

/-! ## The line reader -/

/-- C1, as amended: for every byte sequence `S` with no newline and no zero byte (of any
length, longer than `HUNK_LINE` included) and every `T`, `read_line` on `S ++ "\n" ++ T`
returns 1 with `S` appended to the accumulator (so exactly `S` after `luaL_resetbuffer`),
the newline consumed and left out, and the stream at the first byte of `T`. -/
theorem read_line_terminated (buf S T : List Nat) (h10 : 10 ∉ S) (h0 : 0 ∉ S) :
    read_line buf (S ++ [10] ++ T) = some (.ret 1 (buf ++ S) T) ∧
      read_line luaL_resetbuffer (S ++ [10] ++ T) = some (.ret 1 S T) := by
  have key : ∀ b : List Nat, read_line b (S ++ [10] ++ T) = some (.ret 1 (b ++ S) T) := by
    intro b
    have e : S ++ [10] ++ T = S ++ 10 :: T := by simp
    rw [e, read_line]
    exact read_line_loop_line _ b S T h10 h0 (by simp; omega)
  refine ⟨key buf, ?_⟩
  have := key luaL_resetbuffer
  simpa [luaL_resetbuffer] using this

/-- A line of 300 bytes, longer than one chunk, followed by another line. -/
theorem read_line_terminated_witness :
    read_line [7] (List.replicate 300 97 ++ [10] ++ [98, 10]) =
        some (.ret 1 ([7] ++ List.replicate 300 97) [98, 10]) ∧
      read_line luaL_resetbuffer (List.replicate 300 97 ++ [10] ++ [98, 10]) =
        some (.ret 1 (List.replicate 300 97) [98, 10]) :=
  read_line_terminated [7] (List.replicate 300 97) [98, 10]
    (fun h => absurd (List.eq_of_mem_replicate h) (by decide))
    (fun h => absurd (List.eq_of_mem_replicate h) (by decide))

/-- C1 as stated fails for a line with a zero byte: on `"a\0" ++ "\n"` the chunk is
measured by `strlen` as 1 byte, its last measured byte is not the newline, the next
`fgets` finds the end of the file and `read_line` returns 0 with only `"a"`. -/
theorem read_line_zero_byte_counterexample :
    10 ∉ [97, 0] ∧ read_line luaL_resetbuffer ([97, 0] ++ [10] ++ []) = some (.ret 0 [97] []) ∧
      read_line luaL_resetbuffer ([97, 0] ++ [10] ++ []) ≠ some (.ret 1 [97, 0] []) := by
  decide

/-- C2, as amended: for every byte sequence `B` with no newline and no zero byte,
`read_line` on a stream holding exactly `B` returns 0 with `B` in the accumulator, and a
Line-mode read through `io_read` yields no value when `B` is empty and exactly one value,
the partial line `B`, when it is not; the stream is left at its end. -/
theorem io_read_line_unterminated (BUFSIZ : Nat) (B : List Nat) (h10 : 10 ∉ B) (h0 : 0 ∉ B) :
    read_line luaL_resetbuffer B = some (.ret 0 B []) ∧
      io_read BUFSIZ B [.string [42, 108]] =
        .returned (if B = [] then [] else [.string B]) [] := by
  have hl : read_line luaL_resetbuffer B = some (.ret 0 B []) := by
    have := read_line_loop_eof (B.length + 1) luaL_resetbuffer B h10 h0 (by omega)
    simpa [read_line, luaL_resetbuffer] using this
  refine ⟨hl, ?_⟩
  cases B with
  | nil =>
    simp [io_read, io_read_loop, io_read_part, lua_isnumber, luaL_opt_string, hl, push_buffer,
      luaL_getsize]
  | cons c B1 =>
    simp [io_read, io_read_loop, io_read_part, lua_isnumber, luaL_opt_string, hl, push_buffer,
      luaL_getsize]

/-- An unterminated last line of three bytes. -/
theorem io_read_line_unterminated_witness :
    read_line luaL_resetbuffer [97, 98, 99] = some (.ret 0 [97, 98, 99] []) ∧
      io_read 8192 [97, 98, 99] [.string [42, 108]] =
        .returned (if [97, 98, 99] = ([] : List Nat) then [] else [.string [97, 98, 99]]) [] :=
  io_read_line_unterminated 8192 [97, 98, 99] (by decide) (by decide)

/-- C2 as stated fails: on a stream holding `"a"` and nothing else, a Line-mode
`io_read` pushes the partial line `"a"` as its result. -/
theorem io_read_line_unterminated_counterexample :
    10 ∉ [97] ∧ io_read 8192 [97] [.string [42, 108]] = .returned [.string [97]] [] := by
  decide

/-! ## The loop over the arguments -/

theorem getD_zero_star (p : List Nat) : (p.getD 0 0 != 42) = true ↔ p.head? ≠ some 42 := by
  cases p <;> simp

theorem getD_one_char (p : List Nat) (c : Nat) (hc : c ≠ 0) :
    p.getD 1 0 = c ↔ p.tail.head? = some c := by
  cases p with
  | nil => simp; exact fun e => hc e.symm
  | cons a q =>
    cases q with
    | nil => simp; exact fun e => hc e.symm
    | cons b r => simp

/-- FixedCount through `read_chars` and the end of the loop body. -/
theorem fixed_count_part (f : Stream) (k : Nat) :
    push_buffer (read_chars luaL_resetbuffer f k).1 (read_chars luaL_resetbuffer f k).2.1
      (read_chars luaL_resetbuffer f k).2.2 = spec_fixed_count f k := by
  have hs : (f.take k).take (f.take k).length = f.take k :=
    List.take_of_length_le (le_refl _)
  simp only [read_chars, fread, luaL_addsize_nat, hs, luaL_resetbuffer, List.nil_append]
  cases f with
  | nil =>
    cases k with
    | zero => simp [push_buffer, spec_fixed_count, luaL_getsize]
    | succ k => simp [push_buffer, spec_fixed_count, luaL_getsize]
  | cons c r =>
    cases k with
    | zero => simp [push_buffer, spec_fixed_count, luaL_getsize]
    | succ k => simp [push_buffer, spec_fixed_count, luaL_getsize]

theorem split_at_newline (f : List Nat) (h : 10 ∈ f) :
    f = f.takeWhile (fun c => c != 10) ++ 10 :: (f.dropWhile (fun c => c != 10)).tail := by
  induction f with
  | nil => simp at h
  | cons c r ih =>
    by_cases hc : c = 10
    · subst hc
      simp
    · have hr : 10 ∈ r := by
        rcases List.mem_cons.mp h with e | e
        · exact absurd e.symm hc
        · exact e
      have := ih hr
      simp only [List.takeWhile_cons, List.dropWhile_cons, bne_iff_ne, ne_eq, hc,
        not_false_eq_true, ite_true, List.cons_append]
      rw [← this]

theorem not_mem_takeWhile_newline (f : List Nat) : 10 ∉ f.takeWhile (fun c => c != 10) := by
  intro h
  have := List.mem_takeWhile_imp h
  simp at this

/-- Line through `read_line` and the end of the loop body, on a stream without zero
bytes. -/
theorem line_part (f : Stream) (h0 : 0 ∉ f) :
    ∃ r b g, read_line luaL_resetbuffer f = some (.ret r b g) ∧
      push_buffer (r != 0) b g = spec_line f := by
  by_cases hf : f = []
  · subst hf
    exact ⟨0, [], [], by decide, by decide⟩
  · by_cases h10 : 10 ∈ f
    · have hsplit := split_at_newline f h10
      have hS10 := not_mem_takeWhile_newline f
      have hS0 : 0 ∉ f.takeWhile (fun c => c != 10) :=
        fun e => h0 ((List.takeWhile_sublist _).subset e)
      refine ⟨1, f.takeWhile (fun c => c != 10), (f.dropWhile (fun c => c != 10)).tail, ?_, ?_⟩
      · have := read_line_loop_line (f.length + 1) luaL_resetbuffer
          (f.takeWhile (fun c => c != 10)) (f.dropWhile (fun c => c != 10)).tail hS10 hS0
          (by
            have := (List.takeWhile_sublist (fun c => c != 10) (l := f)).length_le
            omega)
        rw [← hsplit] at this
        simpa [read_line, luaL_resetbuffer] using this
      · simp [push_buffer, spec_line, hf, h10]
    · refine ⟨0, f, [], ?_, ?_⟩
      · have := read_line_loop_eof (f.length + 1) luaL_resetbuffer f h10 h0 (by omega)
        simpa [read_line, luaL_resetbuffer] using this
      · simp [push_buffer, spec_line, hf, h10, luaL_getsize]

/-- Word through `read_word` and the end of the loop body. -/
theorem word_part (f : Stream) :
    push_buffer false (read_word luaL_resetbuffer f).1 (read_word luaL_resetbuffer f).2 =
      spec_word f := by
  have hW : ∀ w ∈ f.takeWhile isspace, isspace w = true := fun w hw =>
    List.mem_takeWhile_imp hw
  have hX : ∀ x ∈ (f.dropWhile isspace).takeWhile (fun c => !isspace c),
      isspace x = false := fun x hx => by
    have := List.mem_takeWhile_imp hx
    simpa using this
  have hR : ∀ r ∈ ((f.dropWhile isspace).dropWhile (fun c => !isspace c)).head?,
      isspace r = true := by
    intro r hr
    have := List.head?_dropWhile_not (fun c => !isspace c) (f.dropWhile isspace)
    rw [Option.mem_def] at hr
    rw [hr] at this
    simpa using this
  have hmax : (f.dropWhile isspace).takeWhile (fun c => !isspace c) = [] →
      (f.dropWhile isspace).dropWhile (fun c => !isspace c) = [] := by
    intro hnil
    cases hg : f.dropWhile isspace with
    | nil => simp
    | cons c r =>
      have hc := List.head?_dropWhile_not isspace f
      rw [hg] at hc hnil
      simp only [List.head?_cons] at hc
      simp [List.takeWhile_cons, hc] at hnil
  have hrun := read_word_run luaL_resetbuffer (f.takeWhile isspace)
    ((f.dropWhile isspace).takeWhile (fun c => !isspace c))
    ((f.dropWhile isspace).dropWhile (fun c => !isspace c)) hW hX hR hmax
  rw [List.append_assoc, List.takeWhile_append_dropWhile, List.takeWhile_append_dropWhile]
    at hrun
  rw [hrun]
  simp only [luaL_resetbuffer, List.nil_append, spec_word]
  by_cases hnil : (f.dropWhile isspace).takeWhile (fun c => !isspace c) = []
  · simp [push_buffer, hnil, luaL_getsize]
  · simp [push_buffer, hnil, luaL_getsize]

/-- One pass through the body of the loop of `io_read` yields what the mode is to yield;
for the Line mode, on a stream without zero bytes. -/
theorem io_read_part_spec (B : Nat) (hB : 0 < B) (f : Stream) (op : LuaObject)
    (hz : line_mode op = true → 0 ∉ f) : io_read_part B f op = spec_sub_read f op := by
  cases op with
  | noobject =>
    obtain ⟨r, b, g, hl, hp⟩ := line_part f (hz rfl)
    simp only [spec_sub_read]
    rw [← hp]
    simp [io_read_part, lua_isnumber, luaL_opt_string, hl]
  | number n =>
    by_cases hn : 0 ≤ n
    · simp [io_read_part, lua_isnumber, lua_getnumber, spec_sub_read, hn, fixed_count_part]
    · simp [io_read_part, lua_isnumber, lua_getnumber, spec_sub_read, hn]
  | numstring q n =>
    by_cases hn : 0 ≤ n
    · simp [io_read_part, lua_isnumber, lua_getnumber, spec_sub_read, hn, fixed_count_part]
    · simp [io_read_part, lua_isnumber, lua_getnumber, spec_sub_read, hn]
  | other => simp [io_read_part, lua_isnumber, luaL_opt_string, spec_sub_read]
  | string p =>
    by_cases h42 : p.head? = some 42
    · have hA : (p.getD 0 0 != 42) = false := by
        have := (getD_zero_star p).not
        simp only [Bool.not_eq_true] at this
        exact this.mpr (by simpa using h42)
      have e110 := getD_one_char p 110 (by decide)
      have e108 := getD_one_char p 108 (by decide)
      have e97 := getD_one_char p 97 (by decide)
      have e119 := getD_one_char p 119 (by decide)
      simp only [io_read_part, lua_isnumber, luaL_opt_string, hA, e110, e108, e97, e119,
        spec_sub_read, h42, Bool.false_eq_true, if_false, ne_eq, not_true_eq_false]
      by_cases h110 : p.tail.head? = some 110
      · rw [if_pos h110, if_pos h110]
        simp only [read_number, spec_number]
      · rw [if_neg h110, if_neg h110]
        by_cases h108 : p.tail.head? = some 108
        · have hline : line_mode (.string p) = true := by simp [line_mode, h42, h108]
          obtain ⟨r, b, g, hl, hp⟩ := line_part f (hz hline)
          rw [if_pos h108, if_pos h108, hl]
          exact hp
        · rw [if_neg h108, if_neg h108]
          by_cases h97 : p.tail.head? = some 97
          · have := read_file_loop_all B (f.length + 1) luaL_resetbuffer f hB (by omega)
            simp only [luaL_resetbuffer, List.nil_append] at this
            rw [if_pos h97, if_pos h97]
            simp [read_file, luaL_resetbuffer, this, push_buffer, spec_whole]
          · rw [if_neg h97, if_neg h97]
            by_cases h119 : p.tail.head? = some 119
            · rw [if_pos h119, if_pos h119]
              exact word_part f
            · rw [if_neg h119, if_neg h119]
    · have hA : (p.getD 0 0 != 42) = true := (getD_zero_star p).mpr h42
      simp only [io_read_part, lua_isnumber, luaL_opt_string, hA, spec_sub_read, h42,
        Bool.false_eq_true, if_false, if_true, ne_eq, not_false_eq_true]

theorem scan_sign_subset (f : Stream) : ∀ x ∈ (scan_sign f).2, x ∈ f := by
  intro x hx
  unfold scan_sign at hx
  split at hx <;> simp_all

theorem scan_exponent_subset (f : Stream) : ∀ x ∈ (scan_exponent f).2, x ∈ f := by
  intro x hx
  cases f with
  | nil => simp [scan_exponent] at hx
  | cons c r =>
    simp only [scan_exponent] at hx
    split at hx
    · split at hx
      · exact hx
      · exact List.mem_cons_of_mem _
          (scan_sign_subset r x ((List.dropWhile_sublist _).subset hx))
    · exact hx

theorem fscanf_lf_subset (f : Stream) : ∀ x ∈ (fscanf_lf f).2, x ∈ f := by
  intro x hx
  have h1 : ∀ y ∈ f.dropWhile isspace, y ∈ f := fun y hy =>
    (List.dropWhile_sublist _).subset hy
  have h3 : ∀ y ∈ (scan_sign (f.dropWhile isspace)).2.dropWhile isdigit, y ∈ f := fun y hy =>
    h1 y (scan_sign_subset _ y ((List.dropWhile_sublist _).subset hy))
  simp only [fscanf_lf] at hx
  split at hx
  · exact h1 x hx
  · have hx1 := scan_exponent_subset _ x hx
    split at hx1
    · rename_i r hr
      exact h3 x (by rw [hr]; exact List.mem_cons_of_mem _ ((List.dropWhile_sublist _).subset hx1))
    · exact h3 x hx1

/-- The stream a mode leaves holds only bytes of the stream it was given. -/
theorem spec_sub_read_subset (f g : Stream) (op : LuaObject) (v : Value)
    (h : spec_sub_read f op = .push v g) : ∀ x ∈ g, x ∈ f := by
  have hfix : ∀ k : Nat, spec_fixed_count f k = .push v g → ∀ x ∈ g, x ∈ f := by
    intro k hk x hx
    simp only [spec_fixed_count] at hk
    split at hk
    · simp at hk
    · simp only [Part.push.injEq] at hk
      rw [← hk.2] at hx
      exact List.mem_of_mem_drop hx
  have hline : spec_line f = .push v g → ∀ x ∈ g, x ∈ f := by
    intro hk x hx
    simp only [spec_line] at hk
    split at hk
    · simp at hk
    · split at hk
      · simp only [Part.push.injEq] at hk
        rw [← hk.2] at hx
        exact (List.dropWhile_sublist _).subset (List.mem_of_mem_tail hx)
      · simp only [Part.push.injEq] at hk
        rw [← hk.2] at hx
        simp at hx
  cases op with
  | noobject => exact hline h
  | number n =>
    simp only [spec_sub_read] at h
    split at h
    · exact hfix _ h
    · simp at h
  | numstring q n =>
    simp only [spec_sub_read] at h
    split at h
    · exact hfix _ h
    · simp at h
  | other => simp [spec_sub_read] at h
  | string p =>
    intro x hx
    simp only [spec_sub_read] at h
    split at h
    · simp at h
    · split at h
      · simp only [spec_number] at h
        have hsub := fscanf_lf_subset f
        rcases hnum : fscanf_lf f with ⟨_ | d, g1⟩
        · rw [hnum] at h; simp at h
        · rw [hnum] at h hsub
          simp only [Part.push.injEq] at h
          rw [← h.2] at hx
          exact hsub x hx
      · split at h
        · exact hline h x hx
        · split at h
          · simp only [spec_whole, Part.push.injEq] at h
            rw [← h.2] at hx
            simp at hx
          · split at h
            · simp only [spec_word] at h
              split at h
              · simp at h
              · simp only [Part.push.injEq] at h
                rw [← h.2] at hx
                exact (List.dropWhile_sublist _).subset ((List.dropWhile_sublist _).subset hx)
            · simp at h

/-- The loop of `io_read` returns what the sequence of modes is to return. -/
theorem io_read_loop_spec (B : Nat) (hB : 0 < B) (rest : List LuaObject) (f : Stream)
    (op : LuaObject) (pushed : List Value)
    (hz : 0 ∈ f → ∀ o ∈ op :: rest, line_mode o = false) :
    io_read_loop B f op rest pushed = spec_reads f (op :: rest) pushed := by
  induction rest generalizing f op pushed with
  | nil =>
    have hpart : io_read_part B f op = spec_sub_read f op :=
      io_read_part_spec B hB f op (fun hl h0 => by
        have := hz h0 op (by simp)
        rw [hl] at this
        exact absurd this (by decide))
    rw [io_read_loop, spec_reads, hpart]
    cases spec_sub_read f op <;> simp [spec_reads]
  | cons b rest ih =>
    have hpart : io_read_part B f op = spec_sub_read f op :=
      io_read_part_spec B hB f op (fun hl h0 => by
        have := hz h0 op (by simp)
        rw [hl] at this
        exact absurd this (by decide))
    rw [io_read_loop, spec_reads, hpart]
    cases hs : spec_sub_read f op with
    | push v g =>
      simp only
      exact ih g b (pushed ++ [v]) (fun h0 o ho =>
        hz (spec_sub_read_subset f g op v hs 0 h0) o (List.mem_cons_of_mem _ ho))
    | stop g => rfl
    | error m g => rfl
    | undefined => rfl
    | diverges => rfl

/-- C3, as amended: for every stream content (without zero bytes when a Line mode is
among the modes) and every non-empty sequence of modes, `io_read` returns what
`spec_io_read` describes: the modes are served in order, each on the stream the one before
left, up to the first that has nothing to yield (FixedCount with bytes asked for and none
left, Line at the end of the stream, Word with no word left, Number with no number); the
values returned are those yielded before it, none for it, and no later mode is served. A
sub-read that fails with bytes in the accumulator is not such a stop: a FixedCount longer
than what is left has `read_chars` return 0 and yields the bytes left, and a last line
without its newline has `read_line` return 0 and yields the line. `BUFSIZ` is positive. -/
theorem io_read_refines_spec (BUFSIZ : Nat) (hB : 0 < BUFSIZ) (f : Stream) (op : LuaObject)
    (rest : List LuaObject) (hz : 0 ∈ f → ∀ o ∈ op :: rest, line_mode o = false) :
    io_read BUFSIZ f (op :: rest) = spec_io_read f (op :: rest) ∧
      (∀ n : Nat, f ≠ [] → f.length < n →
        (read_chars luaL_resetbuffer f n).1 = false ∧
          io_read_part BUFSIZ f (.number n) = .push (.string f) []) ∧
      (f ≠ [] → 10 ∉ f → 0 ∉ f →
        read_line luaL_resetbuffer f = some (.ret 0 f []) ∧
          io_read_part BUFSIZ f (.string [42, 108]) = .push (.string f) []) := by
  refine ⟨?_, ?_, ?_⟩
  · exact io_read_loop_spec BUFSIZ hB rest f op [] hz
  · intro n hf hn
    have hsucc : (read_chars luaL_resetbuffer f n).1 = false := by
      have : ¬ n = min n f.length := by omega
      simp [read_chars, fread, List.length_take, this]
    refine ⟨hsucc, ?_⟩
    have hpart := io_read_part_spec BUFSIZ hB f (.number n) (fun hl => by simp [line_mode] at hl)
    rw [hpart]
    simp [spec_sub_read, spec_fixed_count, hf, List.take_of_length_le (Nat.le_of_lt hn),
      List.drop_of_length_le (Nat.le_of_lt hn)]
  · intro hf h10 h0
    have hl : read_line luaL_resetbuffer f = some (.ret 0 f []) := by
      have := read_line_loop_eof (f.length + 1) luaL_resetbuffer f h10 h0 (by omega)
      simpa [read_line, luaL_resetbuffer] using this
    refine ⟨hl, ?_⟩
    have hpart := io_read_part_spec BUFSIZ hB f (.string [42, 108]) (fun _ => h0)
    rw [hpart]
    simp [spec_sub_read, spec_line, hf, h10]

/-- The modes FixedCount 5, Line, WholeStream on the stream `"abc"`: the short FixedCount
yields the three bytes left, the Line mode finds the end of the stream and stops the
call, and the WholeStream mode is not served. -/
theorem io_read_refines_spec_witness :
    io_read 8192 [97, 98, 99] (.number 5 :: [.string [42, 108], .string [42, 97]]) =
        spec_io_read [97, 98, 99] (.number 5 :: [.string [42, 108], .string [42, 97]]) ∧
      spec_io_read [97, 98, 99] (.number 5 :: [.string [42, 108], .string [42, 97]]) =
        .returned [.string [97, 98, 99]] [] ∧
      ((read_chars luaL_resetbuffer [97, 98, 99] 5).1 = false ∧
        io_read_part 8192 [97, 98, 99] (.number 5) = .push (.string [97, 98, 99]) []) ∧
      (read_line luaL_resetbuffer [97, 98, 99] = some (.ret 0 [97, 98, 99] []) ∧
        io_read_part 8192 [97, 98, 99] (.string [42, 108]) = .push (.string [97, 98, 99]) []) :=
  ⟨(io_read_refines_spec 8192 (by decide) [97, 98, 99] (.number 5)
      [.string [42, 108], .string [42, 97]] (by decide)).1,
    by decide,
    (io_read_refines_spec 8192 (by decide) [97, 98, 99] (.number 5)
      [.string [42, 108], .string [42, 97]] (by decide)).2.1 5 (by decide) (by decide),
    (io_read_refines_spec 8192 (by decide) [97, 98, 99] (.number 5)
      [.string [42, 108], .string [42, 97]] (by decide)).2.2 (by decide) (by decide)
      (by decide)⟩

/-- C3 as stated fails: with the modes FixedCount 5, WholeStream on the stream `"abc"`
the first sub-read fails (`read_chars` returns 0), yet its 3 bytes are pushed and the
second mode is served: the call returns two values, not zero. -/
theorem io_read_partial_counterexample :
    (read_chars luaL_resetbuffer [97, 98, 99] 5).1 = false ∧
      io_read 8192 [97, 98, 99] [.number 5, .string [42, 97]] =
        .returned [.string [97, 98, 99], .string []] [] := by
  decide

/-! ## Number, then line -/

/-- C4, as amended: `io_read` with the formats `"*n"`, `"*l"` on the 9 bytes
`"42\nhello\n"` returns exactly two values, the number 42 and the empty string (what is
left of the first line after the number), and leaves `"hello\n"` on the stream. -/
theorem io_read_number_line (BUFSIZ : Nat) :
    io_read BUFSIZ [52, 50, 10, 104, 101, 108, 108, 111, 10] [.string [42, 110], .string [42, 108]] =
      .returned [.number ⟨false, 42, 0⟩, .string []] [104, 101, 108, 108, 111, 10] := by
  rfl

/-- C4 as stated fails: whatever the stream is left as, the two values returned on
`"42\nhello\n"` are not 42 and `"hello"`. -/
theorem io_read_number_line_counterexample :
    ¬ ∃ g : Stream,
      io_read 8192 [52, 50, 10, 104, 101, 108, 108, 111, 10] [.string [42, 110], .string [42, 108]] =
        .returned [.number ⟨false, 42, 0⟩, .string [104, 101, 108, 108, 111]] g := by
  rintro ⟨g, hg⟩
  have e : io_read 8192 [52, 50, 10, 104, 101, 108, 108, 111, 10]
      [.string [42, 110], .string [42, 108]] =
      .returned [.number ⟨false, 42, 0⟩, .string []] [104, 101, 108, 108, 111, 10] := by rfl
  rw [e] at hg
  simp at hg

/-! ## Fixed count, word, whole stream -/

/-- C5: for every count `n ≥ 0` and every remaining content `R`, `read_chars` appends the
first `min n |R|` bytes of `R` to the accumulator, advances the stream by as many, and
returns success exactly when `|R| ≥ n`. -/
theorem read_chars_spec (buf R : List Nat) (n : Nat) :
    read_chars buf R n =
      (decide (n ≤ R.length), buf ++ R.take (min n R.length), R.drop (min n R.length)) := by
  have ht : R.take (min n R.length) = R.take n := by
    by_cases h : n ≤ R.length
    · rw [Nat.min_eq_left h]
    · rw [Nat.min_eq_right (by omega), List.take_of_length_le (le_refl _),
        List.take_of_length_le (by omega)]
  have hd : R.drop (min n R.length) = R.drop n := by
    by_cases h : n ≤ R.length
    · rw [Nat.min_eq_left h]
    · rw [Nat.min_eq_right (by omega), List.drop_of_length_le (le_refl _),
        List.drop_of_length_le (by omega)]
  have hs : (R.take n).take (R.take n).length = R.take n :=
    List.take_of_length_le (le_refl _)
  have hb : decide (n = (R.take n).length) = decide (n ≤ R.length) := by
    by_cases h : n ≤ R.length
    · simp [List.length_take, h]
    · have : ¬ n = min n R.length := by omega
      simp [List.length_take, h, this]
  simp only [read_chars, fread, luaL_addsize_nat, ht, hd, hs, hb]

/-- C6: on a stream `W ++ X ++ R`, `W` the leading run of white space and `X` the run of
other bytes after it (both maximal), `read_word` leaves exactly `X` in the accumulator and
the stream at the first byte of `R`, the delimiter pushed back; `io_read` in Word mode
returns no value exactly when `X` is empty, and `X` otherwise. -/
theorem read_word_spec (BUFSIZ : Nat) (W X R : List Nat) (hW : ∀ w ∈ W, isspace w = true)
    (hX : ∀ x ∈ X, isspace x = false) (hR : ∀ r ∈ R.head?, isspace r = true)
    (hmax : X = [] → R = []) :
    read_word luaL_resetbuffer (W ++ X ++ R) = (X, R) ∧
      io_read BUFSIZ (W ++ X ++ R) [.string [42, 119]] =
        .returned (if X = [] then [] else [.string X]) R := by
  have hw : read_word luaL_resetbuffer (W ++ X ++ R) = (X, R) := by
    have := read_word_run luaL_resetbuffer W X R hW hX hR hmax
    simpa [luaL_resetbuffer] using this
  have hio : ∀ s : Stream, read_word luaL_resetbuffer s = (X, R) →
      io_read BUFSIZ s [.string [42, 119]] =
        .returned (if X = [] then [] else [.string X]) R := by
    intro s hs
    cases X with
    | nil =>
      simp [io_read, io_read_loop, io_read_part, lua_isnumber, luaL_opt_string, hs,
        push_buffer, luaL_getsize]
    | cons c X1 =>
      simp [io_read, io_read_loop, io_read_part, lua_isnumber, luaL_opt_string, hs,
        push_buffer, luaL_getsize]
  exact ⟨hw, hio _ hw⟩

/-- The stream `"  ab cd"`: two spaces, the word `"ab"`, and `" cd"` left. -/
theorem read_word_spec_witness :
    read_word luaL_resetbuffer ([32, 32] ++ [97, 98] ++ [32, 99, 100]) =
        ([97, 98], [32, 99, 100]) ∧
      io_read 8192 ([32, 32] ++ [97, 98] ++ [32, 99, 100]) [.string [42, 119]] =
        .returned (if [97, 98] = ([] : List Nat) then [] else [.string [97, 98]])
          [32, 99, 100] :=
  read_word_spec 8192 [32, 32] [97, 98] [32, 99, 100] (by decide) (by decide) (by decide)
    (by decide)

/-- C7: for every remaining content `R` (empty, or an exact multiple of the block size
`HUNK_FILE = BUFSIZ`, included), `read_file` returns with all of `R` appended to the
accumulator and the stream at its end, and `io_read` with the format `"*a"` returns
exactly one value, `R` (the empty string on an empty stream). `BUFSIZ` is positive. -/
theorem read_file_spec (BUFSIZ : Nat) (hB : 0 < BUFSIZ) (buf R : List Nat) :
    read_file BUFSIZ buf R = some (buf ++ R, []) ∧
      io_read BUFSIZ R [.string [42, 97]] = .returned [.string R] [] := by
  have key : ∀ b : List Nat, read_file BUFSIZ b R = some (b ++ R, []) := fun b =>
    read_file_loop_all BUFSIZ (R.length + 1) b R hB (by omega)
  refine ⟨key buf, ?_⟩
  have h0 := key luaL_resetbuffer
  simp only [luaL_resetbuffer, List.nil_append] at h0
  simp [io_read, io_read_loop, io_read_part, lua_isnumber, luaL_opt_string, luaL_resetbuffer,
    h0, push_buffer]

/-- A stream of 8 bytes read in blocks of 4: an exact multiple of the block size. -/
theorem read_file_spec_witness :
    read_file 4 [9] [1, 2, 3, 4, 5, 6, 7, 8] = some ([9] ++ [1, 2, 3, 4, 5, 6, 7, 8], []) ∧
      io_read 4 [1, 2, 3, 4, 5, 6, 7, 8] [.string [42, 97]] =
        .returned [.string [1, 2, 3, 4, 5, 6, 7, 8]] [] :=
  read_file_spec 4 (by decide) [9] [1, 2, 3, 4, 5, 6, 7, 8]

/-! ## Closing the standard streams -/

/-- C8 fails on the code for `stderr`: `closefile` on the predefined handle `_STDERR`
returns 1 with the handle's tag changed to the closed tag and the C stream closed, while
it leaves `stdin` and `stdout` open, and while `gc_close` leaves all three open. -/
theorem closefile_stderr :
    (⟨.stderr, .iotag, false⟩ : Handle) ∈ openwithtags ∧
      closefile 0 ⟨.stderr, .iotag, false⟩ = (1, ⟨.stderr, .closedtag, true⟩) ∧
      closefile 0 ⟨.stdin, .iotag, false⟩ = (1, ⟨.stdin, .iotag, false⟩) ∧
      closefile 0 ⟨.stdout, .iotag, false⟩ = (1, ⟨.stdout, .iotag, false⟩) ∧
      (∀ h ∈ openwithtags, gc_close h = h) := by
  decide

/-! ## The deprecated patterns -/

/-- C9, as amended: for every stream and every format string whose first character is
not `*` and which the Lua API does not convert to a number, `io_read` (without
`COMPAT_READPATTERN`) raises "read patterns are deprecated" at once: the stream is as it
was before that sub-read and no value is pushed for it, whatever formats follow. A string
that the API converts to the number `n` is served as the count `n`, whatever its
characters. -/
theorem io_read_pattern_deprecated (BUFSIZ : Nat) (f : Stream) (p : List Nat)
    (rest : List LuaObject) (q : List Nat) (n : Int) (hp : p.head? ≠ some 42) :
    io_read_part BUFSIZ f (.string p) = .error "read patterns are deprecated" f ∧
      io_read BUFSIZ f (.string p :: rest) = .error "read patterns are deprecated" f ∧
      io_read_part BUFSIZ f (.numstring q n) = io_read_part BUFSIZ f (.number n) := by
  have h0 : (p.getD 0 0 != 42) = true := by
    cases p with
    | nil => decide
    | cons c q =>
      have : c ≠ 42 := fun e => hp (by simp [e])
      simpa using this
  have hpart : io_read_part BUFSIZ f (.string p) = .error "read patterns are deprecated" f := by
    simp only [io_read_part, lua_isnumber, luaL_opt_string]
    rw [if_pos h0]
    simp
  refine ⟨hpart, ?_, rfl⟩
  cases rest <;> simp [io_read, io_read_loop, hpart]

/-- The old pattern `"%d"` on the stream `"12"`, followed by a Line mode; and the string
`"2"`, which is the count 2. -/
theorem io_read_pattern_deprecated_witness :
    io_read_part 8192 [49, 50] (.string [37, 100]) = .error "read patterns are deprecated" [49, 50] ∧
      io_read 8192 [49, 50] (.string [37, 100] :: [.string [42, 108]]) =
        .error "read patterns are deprecated" [49, 50] ∧
      io_read_part 8192 [49, 50] (.numstring [50] 2) = io_read_part 8192 [49, 50] (.number 2) :=
  io_read_pattern_deprecated 8192 [49, 50] [37, 100] [.string [42, 108]] [50] 2 (by decide)

/-- C9 as stated fails: the format string `"5"` does not start with `*`, but the Lua API
takes it for the number 5, so on the stream `"abcdefg"` `io_read` raises no error: it
reads five bytes and returns them. -/
theorem io_read_numeric_format_counterexample :
    ([53] : List Nat).head? ≠ some 42 ∧
      io_read 8192 [97, 98, 99, 100, 101, 102, 103] [.numstring [53] 5] =
        .returned [.string [97, 98, 99, 100, 101]] [102, 103] := by
  decide

/-! ## A chunk that starts with a zero byte -/

/-- C10 fails on the code: on the stream `"\0\n"` the chunk read by `fgets` succeeds,
`strlen` measures it as 0 bytes, and the test `b[n-1] != '\n'` reads the byte before the
start of the (empty) accumulator. -/
theorem read_line_zero_first_byte :
    fgets HUNK_LINE [0, 10] = some ([0, 10, 0], []) ∧ strlen [0, 10, 0] = 0 ∧
      read_line luaL_resetbuffer [0, 10] = some (.badindex [] []) ∧
      io_read 8192 [0, 10] [.string [42, 108]] = .undefined := by
  decide

end Liolib
